import Mathlib

/-!
Verification development for the `grist2` Python client library
(files `grist2/utils.py`, `grist2/client.py`, `grist2/exceptions.py`).

Strings are modelled as `List Char`.  Python dictionaries appearing in the
library (parsed JSON objects, record mappings, query-parameter dicts) are
modelled as insertion-ordered association lists with unique keys, which is
exactly the observable behaviour of a Python `dict`.  The sentinel `UNSET`
used by `utils.passed_kwargs` is modelled by `Option` (`none` = the
argument was not passed, `some v` = the argument was passed with value
`v`, where `v` may itself be the JSON value `null`).
-/

abbrev Str := List Char

/-- Does `s` start with `pre`? Models Python `s.startswith(pre)`. -/
def startsW : Str → Str → Bool
  | _, [] => true
  | [], _ :: _ => false
  | a :: x, b :: y => a == b && startsW x y

/-- Does `s` contain `pat` as a contiguous substring?  Models Python
`pat in s`. -/
def hasSub (pat : Str) : Str → Bool
  | [] => pat.isEmpty
  | c :: rest => startsW (c :: rest) pat || hasSub pat rest

/-- Source `utils.strip_prefix(string, prefix)`: remove `pre` from the front
of `s` when `s` starts with it, otherwise return `s` unchanged.  (The Lean
name differs from the Python one only because of lexical restrictions.) -/
def strip_pre (s pre : Str) : Str :=
  if startsW s pre then s.drop pre.length else s

/-- Python `s.lstrip('/')`: drop every leading `'/'`. -/
def lstrip (s : Str) : Str := s.dropWhile (· == '/')

/-- Python `s.rstrip('/')`: drop every trailing `'/'`. -/
def rstrip (s : Str) : Str := (s.reverse.dropWhile (· == '/')).reverse

/-- The binary step of `utils.join_urls`:
`lambda url1, url2: url1.rstrip('/') + '/' + str(url2).lstrip('/')`. -/
def join2 (u1 u2 : Str) : Str := rstrip u1 ++ '/' :: lstrip u2

/-- Source `utils.join_urls(*urls)`:
`reduce(lambda url1, url2: url1.rstrip('/') + '/' + str(url2).lstrip('/'), urls).rstrip('/')`.
The (nonempty) argument tuple is given as a head element plus a tail list. -/
def join_urls (u : Str) (rest : List Str) : Str :=
  rstrip (rest.foldl join2 u)

/-- Both-sided strip of slashes; convenience for stating what `join_urls`
does at segment boundaries. -/
def trimSl (s : Str) : Str := rstrip (lstrip s)

/-- The contribution of one joined segment to a `join_urls` result: nothing
if the segment is only slashes, otherwise one `'/'` followed by the segment
stripped of its leading and trailing slashes. -/
def segPart (s : Str) : Str := if trimSl s = [] then [] else '/' :: trimSl s

/-- Python `s.rsplit('/', 1)[0]` (used by `Client.parent`): everything
before the last `'/'`, or all of `s` when `s` has no `'/'`. -/
def rsplitSlashHead (s : Str) : Str :=
  if '/' ∈ s then ((s.reverse.dropWhile (fun c => !(c == '/'))).drop 1).reverse else s

/-- The URL-relevant state of `client.Client`: the server address, the
relative path cursor `base_url`, and the dry-run flag.  (The session and
API key play no role in any claim proved here.) -/
structure ClientM where
  server : Str
  base_url : Str
  dryrun : Bool

/-- `Client.__init__`: stores `server` and `strip_prefix(base_url, server)`. -/
def mkClient (server base_url : Str) (dryrun : Bool) : ClientM :=
  ⟨server, strip_pre base_url server, dryrun⟩

/-- `Client.at(base_url)`: a copy of the client with a new base URL.  The
source passes `base_url or self.base_url` to the constructor, so a falsy
(empty) path argument keeps the current cursor; the constructor then
passes the chosen value through `strip_prefix` again. -/
def ClientM.toBase (c : ClientM) (b : Str) : ClientM :=
  mkClient c.server (if b = [] then c.base_url else b) c.dryrun

/-- `Client.full_url`: `join_urls(self.server, self.base_url)`. -/
def ClientM.full_url (c : ClientM) : Str :=
  join_urls c.server [c.base_url]

/-- `Client.__truediv__(other)`: `self.at(base_url=join_urls(self.base_url, other))`. -/
def ClientM.truediv (c : ClientM) (other : Str) : ClientM :=
  c.toBase (join_urls c.base_url [other])

/-- A chain of `/`-descents, left to right. -/
def descendChain (c : ClientM) (segs : List Str) : ClientM :=
  segs.foldl ClientM.truediv c

/-- `Client.parent`: `self.at(base_url=self.base_url.rstrip('/').rsplit('/', 1)[0])`. -/
def ClientM.parent (c : ClientM) : ClientM :=
  c.toBase (rsplitSlashHead (rstrip c.base_url))

/-- The absolute URL computed at the top of `Client.request`:
`join_urls(self.full_url, url)`. -/
def requestUrl (c : ClientM) (url : Str) : Str :=
  join_urls c.full_url [url]

/-- Parsed JSON values, as produced by `response.json()`. -/
inductive JVal where
  | null : JVal
  | bool (b : Bool) : JVal
  | num (n : Int) : JVal
  | str (s : Str) : JVal
  | arr (l : List JVal) : JVal
  | obj (l : List (Str × JVal)) : JVal

/-- A Python dictionary with string keys and JSON-like values, as an
insertion-ordered association list (keys unique). -/
abbrev PyDict := List (Str × JVal)

/-- Python `d.get(k)` restricted to the first (unique) occurrence of `k`. -/
def dlookup (k : Str) : PyDict → Option JVal
  | [] => none
  | (k0, v) :: t => if k0 == k then some v else dlookup k t

/-- Removal of key `k` from a dict (the mutation performed by `d.pop(k)`). -/
def dictRemove (k : Str) : PyDict → PyDict
  | [] => []
  | (k0, v) :: t => if k0 == k then t else (k0, v) :: dictRemove k t

/-- Python `d.pop(k)`: the value at `k` together with the dict after the
destructive removal, or `none` when `k` is absent (a `KeyError`). -/
def dictPop (k : Str) (d : PyDict) : Option (JVal × PyDict) :=
  match dlookup k d with
  | none => none
  | some v => some (v, dictRemove k d)

/-- Python `d[k] = v` on a dict: replace in place when the key is present
(keeping its position), append at the end otherwise. -/
def dictSet : PyDict → Str → JVal → PyDict
  | [], k, v => [(k, v)]
  | (k0, v0) :: t, k, v => if k0 == k then (k0, v) :: t else (k0, v0) :: dictSet t k v

/-- Python truthiness of a parsed JSON value (`if error or ...`). -/
def truthy : JVal → Bool
  | .null => false
  | .bool b => b
  | .num n => !(n == 0)
  | .str s => !s.isEmpty
  | .arr l => !l.isEmpty
  | .obj l => !l.isEmpty

/-- The contention marker searched for in `Client.request`. -/
def marker : Str := "SQLITE_BUSY".toList

mutual
/-- Does the marker occur in Python `str(error)` for the JSON value
`error`?  Models `'SQLITE_BUSY' in str(error)`: the marker consists only
of letters and an underscore, so it occurs in the textual rendering of a
value exactly when it occurs in one of the string atoms (or object keys)
of the value — the quotes, commas, brackets and escape characters that
`str` inserts between atoms cannot take part in a match. -/
def containsMarker : JVal → Bool
  | .null => false
  | .bool _ => false
  | .num _ => false
  | .str s => hasSub marker s
  | .arr l => cmArr l
  | .obj l => cmObj l

/-- Marker search over the elements of a JSON array. -/
def cmArr : List JVal → Bool
  | [] => false
  | v :: t => containsMarker v || cmArr t

/-- Marker search over the entries of a JSON object. -/
def cmObj : List (Str × JVal) → Bool
  | [] => false
  | (k, v) :: t => hasSub marker k || containsMarker v || cmObj t
end

/-- Escape of one character inside a JSON string literal, as performed by
`json.dumps` (quote and backslash; other characters pass unchanged). -/
def escChar (c : Char) : Str :=
  if c = '"' then ['\\', '"'] else if c = '\\' then ['\\', '\\'] else [c]

/-- A JSON string literal as rendered by `json.dumps`. -/
def dumpsStr (s : Str) : Str :=
  '"' :: (s.flatMap escChar ++ ['"'])

mutual
/-- Python `json.dumps(v)` with its default separators
(`", "` between items, `": "` after keys). -/
def dumps : JVal → Str
  | .null => "null".toList
  | .bool true => "true".toList
  | .bool false => "false".toList
  | .num n => (toString n).toList
  | .str s => dumpsStr s
  | .arr l => '[' :: (dumpsArr l ++ [']'])
  | .obj l => Char.ofNat 123 :: (dumpsObj l ++ [Char.ofNat 125])

/-- Comma-separated rendering of array elements. -/
def dumpsArr : List JVal → Str
  | [] => []
  | [v] => dumps v
  | v :: t => dumps v ++ ',' :: ' ' :: dumpsArr t

/-- Comma-separated rendering of object entries. -/
def dumpsObj : List (Str × JVal) → Str
  | [] => []
  | [(k, v)] => dumpsStr k ++ ':' :: ' ' :: dumps v
  | (k, v) :: t => dumpsStr k ++ ':' :: ' ' :: dumps v ++ ',' :: ' ' :: dumpsObj t
end

/-- The key `'error'`. -/
def errorKey : Str := "error".toList

/-- The generic message of the JSON-parse failure in `Client.request`. -/
def parseFailMsg : Str := "Failed to parse JSON".toList

/-- The verb `'GET'`. -/
def GETverb : Str := "GET".toList

/-- The transport-level failure type (`requests.exceptions.ConnectionError`),
with the three places `Client.request` can meet it: a low-level network
failure raised by `session.request`, the explicit raise on a 502/503/504
status, and the explicit raise on a SQLITE_BUSY marker. -/
inductive ConnErr where
  | net (msg : Str) : ConnErr
  | gateway (status : Nat) : ConnErr
  | busy : ConnErr
deriving DecidableEq

/-- The structured error `exceptions.APIError` as far as the claims are
concerned: the optional parsed JSON body (`response_json`), the optional
override message, and the HTTP status of the raw response it carries. -/
structure ApiErr where
  response_json : Option JVal
  message : Option Str
  status : Nat

/-- Outcome of one attempt of the body of `Client.request`: a returned
value (Python `None` or a parsed JSON value), a raised `ConnectionError`
(retryable), or a raised `APIError` (never caught by the retry wrapper). -/
inductive AttemptResult where
  | ok (v : Option JVal) : AttemptResult
  | conn (e : ConnErr) : AttemptResult
  | api (e : ApiErr) : AttemptResult

/-- What the HTTP layer produces for one attempt: either a low-level
connection failure from `session.request`, or a response with a status
code and a body (`none` when `response.json()` raises `ValueError`,
`some r` when the body parses to `r`). -/
inductive HttpEvent where
  | netFail (msg : Str) : HttpEvent
  | got (status : Nat) (body : Option JVal) : HttpEvent

/-- `error = None; if isinstance(result, dict): error = result.get('error')`
(a missing key and a JSON `null` both give Python `None`, modelled `.null`). -/
def getErrorVal : JVal → JVal
  | .obj kvs => (dlookup errorKey kvs).getD .null
  | _ => .null

/-- `response.ok` of the `requests` library: true exactly when the status
code is below 400. -/
def okStatus (st : Nat) : Bool := decide (st < 400)

/-- The body of `Client.request` after the dry-run branch, as a function of
the HTTP layer's behaviour: raise `ConnectionError` on 502/503/504, wrap a
JSON-parse failure as `APIError(..., message='Failed to parse JSON')`,
raise `ConnectionError` when the error field's string form contains
`SQLITE_BUSY`, raise `APIError(..., response_json=result)` when the error
field is truthy or the response is not ok, and otherwise return the parsed
value. -/
def classify (ev : HttpEvent) : AttemptResult :=
  match ev with
  | .netFail msg => .conn (.net msg)
  | .got st body =>
    if st = 502 ∨ st = 503 ∨ st = 504 then .conn (.gateway st)
    else
      match body with
      | none => .api ⟨none, some parseFailMsg, st⟩
      | some result =>
        let error := getErrorVal result
        if containsMarker error then .conn .busy
        else if truthy error || !(okStatus st) then .api ⟨some result, none, st⟩
        else .ok (some result)

/-- One attempt of `Client.request` including the dry-run branch
(`if self.dryrun and method != 'GET': return None` before any network
traffic), and whether the network was touched by this attempt. -/
structure AttemptRun where
  networkUsed : Bool
  result : AttemptResult

/-- The dry-run gate plus `classify`: a mutating verb under dry-run makes
no network call and returns `None`; otherwise the request is issued. -/
def requestAttempt (dryrun : Bool) (method : Str) (ev : HttpEvent) : AttemptRun :=
  if dryrun = true ∧ ¬ method = GETverb then ⟨false, .ok none⟩
  else ⟨true, classify ev⟩

/-- What a whole `Client.request` call (through the `retry` wrapper) does:
the final outcome, how many attempts ran, which retryable errors were
logged as warnings, and how many 1-second pauses were taken. -/
structure RunTrace where
  final : AttemptResult
  attemptsMade : Nat
  warnings : List ConnErr
  sleeps : Nat

/-- The loop of `utils.retry(num_attempts, exception_class, log)` from
iteration `i` on, with `fuel = num_attempts - i` iterations left:
`return func(...)` on success, propagate a non-retryable exception,
re-raise a retryable failure when `i == num_attempts - 1`, and otherwise
log a warning, sleep one second and continue.  A loop that runs out of
iterations without returning falls through to Python's implicit `None`. -/
def retryGo (n : Nat) (f : Nat → AttemptResult) (i : Nat) : Nat → RunTrace
  | 0 => ⟨.ok none, 0, [], 0⟩
  | fuel + 1 =>
    match f i with
    | .ok v => ⟨.ok v, 1, [], 0⟩
    | .api e => ⟨.api e, 1, [], 0⟩
    | .conn e =>
      if i = n - 1 then ⟨.conn e, 1, [], 0⟩
      else
        let t := retryGo n f (i + 1) fuel
        ⟨t.final, t.attemptsMade + 1, e :: t.warnings, t.sleeps + 1⟩

/-- `utils.retry(n, ConnectionError, log)` applied to a function whose
`i`-th invocation gives `f i`. -/
def retryLoop (n : Nat) (f : Nat → AttemptResult) : RunTrace :=
  retryGo n f 0 n

/-- A complete `Client.request` call: the `@retry(5, ConnectionError, log)`
wrapper around the request body, where attempt `i` meets HTTP behaviour
`evs i`. -/
def clientCall (dryrun : Bool) (method : Str) (evs : Nat → HttpEvent) : RunTrace :=
  retryLoop 5 (fun i => (requestAttempt dryrun method (evs i)).result)

/-- The spec's description of the non-retryable part of `Client.request`
(for a response whose status is not 502/503/504), with the two amendments
forced by the code: "non-2xx" is read as "not ok, i.e. status at least
400", and an error value whose string form contains the contention marker
is retried rather than returned.  To be compared with `classify`. -/
def specOutcome (st : Nat) (body : Option JVal) : AttemptResult :=
  match body with
  | none => .api ⟨none, some parseFailMsg, st⟩
  | some result =>
    if containsMarker (getErrorVal result) then .conn .busy
    else if truthy (getErrorVal result) then .api ⟨some result, none, st⟩
    else if 400 ≤ st then .api ⟨some result, none, st⟩
    else .ok (some result)

/-- Source `utils.passed_kwargs(**kwargs)`:
`{k: v for k, v in kwargs.items() if v is not UNSET}`, over the keyword
arguments in their declaration order. -/
def passed_kwargs (kvs : List (Str × Option JVal)) : PyDict :=
  kvs.filterMap (fun kv => kv.2.map (fun v => (kv.1, v)))

/-- The query parameters assembled by `WithListRecords.list`:
`params = passed_kwargs(filters=filters, sort_by=sort_by, limit=limit)`
followed by `params['filters'] = json.dumps(filters)` when `filters` was
passed. -/
def listParams (filters sort_by limit : Option JVal) : PyDict :=
  let params := passed_kwargs
    [("filters".toList, filters), ("sort_by".toList, sort_by), ("limit".toList, limit)]
  match filters with
  | none => params
  | some fv => dictSet params "filters".toList (.str (dumps fv))

/-- The key `'id'`. -/
def idKey : Str := "id".toList

/-- The key `'fields'`. -/
def fieldsKey : Str := "fields".toList

/-- The key `'records'`. -/
def recordsKey : Str := "records".toList

/-- A forwarded HTTP call as a resource-proxy method hands it to the
transport: verb, relative path, optional JSON body. -/
structure ReqRec where
  method : Str
  path : Str
  body : Option JVal

/-- The observable outcome of a resource-proxy method invocation: the
request it forwards to the transport (`none` when the method fails before
reaching the transport) and the state of the caller-supplied record
mappings after the call. -/
structure ProxyRun where
  request : Option ReqRec
  argsAfter : List PyDict

/-- The list comprehension of `Records.modify`:
`[{"id": record.pop("id"), "fields": record} for record in records]`,
evaluated left to right.  Yields the envelope list (or `none` when a
record lacks the `'id'` key and `pop` raises `KeyError`) together with the
caller's mappings as the comprehension leaves them: each record processed
before the failure point has lost its `'id'` key. -/
def modifyGo : List PyDict → Option (List JVal) × List PyDict
  | [] => (some [], [])
  | r :: rest =>
    match dictPop idKey r with
    | none => (none, r :: rest)
    | some (v, r2) =>
      ((modifyGo rest).1.map (fun l => JVal.obj [(idKey, v), (fieldsKey, .obj r2)] :: l),
       r2 :: (modifyGo rest).2)

/-- `Records.modify(records)` (with the default `parse_strings=True`, so no
query parameters): build the envelopes, then
`self.client.patch(json=dict(records=records))`.  The `KeyError` from a
record without `'id'` aborts the call before the transport is invoked. -/
def Records_modify (records : List PyDict) : ProxyRun :=
  { request := (modifyGo records).1.map
      (fun l => ⟨"PATCH".toList, [], some (.obj [(recordsKey, .arr l)])⟩),
    argsAfter := (modifyGo records).2 }

/-- `Records.create(records)` (default `parse_strings=True`): wrap each
mapping in a fresh `{"fields": record}` envelope — the caller's mappings
are not written to — and `self.client.post(json=dict(records=records))`. -/
def Records_create (records : List PyDict) : ProxyRun :=
  { request := some ⟨"POST".toList, [],
      some (.obj [(recordsKey, .arr (records.map (fun r => JVal.obj [(fieldsKey, .obj r)])))])⟩,
    argsAfter := records }

/-- A resource-proxy method call against an abstract transport
`t : ReqRec → Option JVal` (what `Client.request` returns): the request
issued, the transport's return value, and the value the method returns. -/
structure MethodCall where
  req : ReqRec
  transportVal : Option JVal
  returned : Option JVal

/-- `Org.describe`: `return self.client.get()`. -/
def Org_describe (t : ReqRec → Option JVal) : MethodCall :=
  let q : ReqRec := ⟨GETverb, [], none⟩
  ⟨q, t q, t q⟩

/-- `Org.delete`: `return self.client.delete()`. -/
def Org_delete (t : ReqRec → Option JVal) : MethodCall :=
  let q : ReqRec := ⟨"DELETE".toList, [], none⟩
  ⟨q, t q, t q⟩

/-- `Records.delete`: `self.client.parent.post('data/delete')` — the call
is issued (on the parent client) but its value is not returned: the method
body has no `return`, so the method returns Python `None`. -/
def Records_delete (t : ReqRec → Option JVal) : MethodCall :=
  let q : ReqRec := ⟨"POST".toList, "data/delete".toList, none⟩
  ⟨q, t q, none⟩

theorem dropWhileApp (p : Char → Bool) (x y : Str) :
    List.dropWhile p (x ++ y) =
      if List.dropWhile p x = [] then List.dropWhile p y else List.dropWhile p x ++ y := by
  induction x with
  | nil => simp
  | cons c t ih =>
    by_cases hc : p c
    · simpa [List.dropWhile, hc] using ih
    · simp [List.dropWhile, hc]

theorem lstrip_append (x y : Str) :
    lstrip (x ++ y) = if lstrip x = [] then lstrip y else lstrip x ++ y := by
  simpa [lstrip] using dropWhileApp (· == '/') x y

theorem rstrip_append (x y : Str) :
    rstrip (x ++ y) = if rstrip y = [] then rstrip x else x ++ rstrip y := by
  unfold rstrip
  rw [List.reverse_append, dropWhileApp]
  rcases h : List.dropWhile (· == '/') y.reverse with _ | ⟨c, t⟩ <;>
    simp [h, List.reverse_eq_nil_iff]

theorem dropWhileIdem (p : Char → Bool) (l : Str) :
    List.dropWhile p (List.dropWhile p l) = List.dropWhile p l := by
  induction l with
  | nil => rfl
  | cons c t ih =>
    by_cases hc : p c
    · simpa [List.dropWhile, hc] using ih
    · simp [List.dropWhile, hc]

theorem lstrip_lstrip (s : Str) : lstrip (lstrip s) = lstrip s :=
  dropWhileIdem _ s

theorem rstrip_rstrip (s : Str) : rstrip (rstrip s) = rstrip s := by
  unfold rstrip
  rw [List.reverse_reverse, dropWhileIdem]

theorem lstrip_eq_nil_iff (s : Str) : lstrip s = [] ↔ ∀ c ∈ s, c = '/' := by
  simp [lstrip, List.dropWhile_eq_nil_iff]

theorem rstrip_eq_nil_iff (s : Str) : rstrip s = [] ↔ ∀ c ∈ s, c = '/' := by
  simp [rstrip, List.dropWhile_eq_nil_iff, List.reverse_eq_nil_iff]

theorem rstrip_eq_nil_iff_lstrip (s : Str) : rstrip s = [] ↔ lstrip s = [] := by
  rw [rstrip_eq_nil_iff, lstrip_eq_nil_iff]

theorem rstrip_single (c : Char) : rstrip [c] = if c = '/' then [] else [c] := by
  by_cases hc : c = '/'
  · subst hc; simp [rstrip, List.dropWhile]
  · have hcb : (c == '/') = false := by simp [hc]
    simp [rstrip, List.dropWhile, hcb, hc]

theorem lstrip_cons_slash (s : Str) : lstrip ('/' :: s) = lstrip s := by
  simp [lstrip, List.dropWhile]

theorem lstrip_cons_of_ne (c : Char) (s : Str) (hc : ¬ c = '/') :
    lstrip (c :: s) = c :: s := by
  have hcb : (c == '/') = false := by simp [hc]
  simp [lstrip, List.dropWhile, hcb]

theorem rstrip_cons (c : Char) (s : Str) :
    rstrip (c :: s) = if rstrip s = [] then (if c = '/' then [] else [c]) else c :: rstrip s := by
  have h := rstrip_append [c] s
  simpa [rstrip_single] using h

theorem lstrip_rstrip_comm (s : Str) : lstrip (rstrip s) = rstrip (lstrip s) := by
  induction s with
  | nil => rfl
  | cons c t ih =>
    by_cases hc : c = '/'
    · subst hc
      rw [lstrip_cons_slash, rstrip_cons]
      by_cases ht : rstrip t = []
      · rw [if_pos ht, if_pos rfl]
        have h2 : lstrip t = [] := (rstrip_eq_nil_iff_lstrip t).mp ht
        rw [h2]
        rfl
      · rw [if_neg ht, lstrip_cons_slash, ih]
    · rw [lstrip_cons_of_ne c t hc, rstrip_cons]
      by_cases ht : rstrip t = []
      · rw [if_pos ht, if_neg hc]
        exact lstrip_cons_of_ne c [] hc
      · rw [if_neg ht]
        exact lstrip_cons_of_ne c (rstrip t) hc

theorem rstrip_join2 (a s : Str) : rstrip (join2 a s) = rstrip a ++ segPart s := by
  unfold join2
  rw [rstrip_append]
  have h1 : rstrip ('/' :: lstrip s) =
      if rstrip (lstrip s) = [] then [] else '/' :: rstrip (lstrip s) := by
    rw [rstrip_cons]
    by_cases h : rstrip (lstrip s) = [] <;> simp [h]
  rw [h1]
  by_cases h : rstrip (lstrip s) = []
  · simp [h, rstrip_rstrip, segPart, trimSl]
  · simp [h, segPart, trimSl]

theorem join_urls_normal (a : Str) (l : List Str) :
    join_urls a l = rstrip a ++ (l.map segPart).flatten := by
  induction l generalizing a with
  | nil => simp [join_urls]
  | cons s t ih =>
    have h0 : join_urls a (s :: t) = join_urls (join2 a s) t := by
      simp [join_urls, List.foldl_cons]
    rw [h0, ih, rstrip_join2]
    simp [List.append_assoc]

theorem rstrip_segPart (s : Str) : rstrip (segPart s) = segPart s := by
  unfold segPart
  by_cases h : trimSl s = []
  · rw [if_pos h]
    rfl
  · have h2 : rstrip (trimSl s) = trimSl s := by
      unfold trimSl
      exact rstrip_rstrip _
    simp only [if_neg h]
    rw [rstrip_cons, h2]
    simp [h]

theorem rstrip_of_segJoin (l : List Str) :
    rstrip ((l.map segPart).flatten) = (l.map segPart).flatten := by
  induction l with
  | nil => rfl
  | cons s t ih =>
    simp only [List.map_cons, List.flatten_cons]
    rw [rstrip_append, ih]
    by_cases hj : (t.map segPart).flatten = []
    · simp [hj, rstrip_segPart]
    · simp [hj]

theorem trimSl_rstrip (s : Str) : trimSl (rstrip s) = trimSl s := by
  show rstrip (lstrip (rstrip s)) = trimSl s
  rw [lstrip_rstrip_comm s, rstrip_rstrip]
  rfl

theorem segPart_rstrip (s : Str) : segPart (rstrip s) = segPart s := by
  unfold segPart
  rw [trimSl_rstrip]

theorem lstrip_trimSl (s : Str) : lstrip (trimSl s) = trimSl s := by
  show lstrip (rstrip (lstrip s)) = trimSl s
  rw [lstrip_rstrip_comm, lstrip_lstrip]
  rfl

theorem join_urls_append (a : Str) (l m : List Str) :
    join_urls (join_urls a l) m = join_urls a (l ++ m) := by
  rw [join_urls_normal, join_urls_normal, join_urls_normal, rstrip_append,
    rstrip_of_segJoin l, rstrip_rstrip]
  by_cases hj : (l.map segPart).flatten = []
  · simp [hj]
  · simp [hj, List.append_assoc]

theorem segJoin_struct (l : List Str) :
    (l.map segPart).flatten = [] ∨
      ∃ x, (l.map segPart).flatten = '/' :: x ∧ lstrip x = x := by
  induction l with
  | nil => exact Or.inl rfl
  | cons s t ih =>
    simp only [List.map_cons, List.flatten_cons]
    by_cases hs : trimSl s = []
    · simpa [segPart, hs] using ih
    · right
      refine ⟨trimSl s ++ (t.map segPart).flatten, by simp [segPart, hs], ?_⟩
      rw [lstrip_append, lstrip_trimSl]
      simp [hs]

theorem segJoin_shape (m : List Str) (x : Str)
    (h : (m.map segPart).flatten = '/' :: x) :
    lstrip x = x ∧ rstrip x = x ∧ ¬ x = [] := by
  have hx : lstrip x = x := by
    rcases segJoin_struct m with h0 | ⟨y, hy, hly⟩
    · rw [h0] at h; exact absurd h (by simp)
    · rw [h] at hy
      have hxy : x = y := by simpa using hy
      rw [hxy]; exact hly
  have hr : rstrip ('/' :: x) = '/' :: x := by
    rw [← h]; exact rstrip_of_segJoin m
  have hxne : ¬ x = [] := by
    intro hxe
    rw [hxe] at hr
    have : rstrip ['/'] = [] := by simp [rstrip_single]
    rw [this] at hr
    exact absurd hr (by simp)
  refine ⟨hx, ?_, hxne⟩
  rw [rstrip_cons] at hr
  by_cases h2 : rstrip x = []
  · rw [if_pos h2] at hr
    simp at hr
  · rw [if_neg h2] at hr
    simpa using hr

theorem segPart_join_urls (b : Str) (m : List Str) :
    segPart (join_urls b m) = segPart b ++ (m.map segPart).flatten := by
  rw [join_urls_normal]
  by_cases hb : trimSl b = []
  · have hb2 : lstrip (rstrip b) = [] := by rw [lstrip_rstrip_comm]; exact hb
    rcases hmj : (m.map segPart).flatten with _ | ⟨c, x⟩
    · simp only [List.append_nil]
      rw [segPart_rstrip]
    · have hstruct := segJoin_struct m
      rw [hmj] at hstruct
      rcases hstruct with h0 | ⟨y, hy, hly⟩
      · exact absurd h0 (by simp)
      · obtain ⟨hc, hxy⟩ : c = '/' ∧ x = y := by simpa using hy
        subst hc
        subst hxy
        have hshape := segJoin_shape m x (by rw [hmj])
        have harg : trimSl (rstrip b ++ '/' :: x) = x := by
          unfold trimSl
          rw [lstrip_append, hb2, if_pos rfl, lstrip_cons_slash, hshape.1, hshape.2.1]
        unfold segPart
        rw [harg, if_neg hshape.2.2, if_pos hb]
        rfl
  · have hb2 : lstrip (rstrip b) = trimSl b := by rw [lstrip_rstrip_comm]; rfl
    have hbne : ¬ lstrip (rstrip b) = [] := by rw [hb2]; exact hb
    have hl : lstrip (rstrip b ++ (m.map segPart).flatten) =
        trimSl b ++ (m.map segPart).flatten := by
      rw [lstrip_append, if_neg hbne, hb2]
    have hr : rstrip (trimSl b ++ (m.map segPart).flatten) =
        trimSl b ++ (m.map segPart).flatten := by
      rw [rstrip_append, rstrip_of_segJoin]
      by_cases hj : (m.map segPart).flatten = []
      · have : rstrip (trimSl b) = trimSl b := by
          unfold trimSl
          exact rstrip_rstrip _
        simp [hj, this]
      · simp [hj]
    have harg : trimSl (rstrip b ++ (m.map segPart).flatten) =
        trimSl b ++ (m.map segPart).flatten := by
      unfold trimSl
      rw [hl]
      exact hr
    have hdef : ∀ s : Str, segPart s = if trimSl s = [] then [] else '/' :: trimSl s :=
      fun _ => rfl
    rw [hdef (rstrip b ++ (m.map segPart).flatten), hdef b, harg,
      if_neg (by simp [hb]), if_neg hb]
    simp

theorem join_urls_flatten (a b : Str) (m k : List Str) :
    join_urls a (join_urls b m :: k) = join_urls a (b :: (m ++ k)) := by
  rw [join_urls_normal a (join_urls b m :: k), join_urls_normal a (b :: (m ++ k))]
  simp only [List.map_cons, List.flatten_cons, List.map_append, List.flatten_append]
  rw [segPart_join_urls]
  simp [List.append_assoc]

/-- The invariant kept by every path cursor reachable in this library:
it is empty or begins with `'/'`.  Under it (and a server address not
beginning with `'/'`), the `strip_prefix` in the constructor is inert. -/
def baseInv (b : Str) : Prop := b = [] ∨ b.head? = some '/'

theorem strip_pre_noop (b server : Str) (hs : server.head? ≠ some '/')
    (hb : baseInv b) : strip_pre b server = b := by
  unfold strip_pre
  rcases server with _ | ⟨c, y⟩
  · have h1 : startsW b [] = true := by cases b <;> rfl
    simp [h1]
  · have hc : ¬ c = '/' := by
      intro h
      exact hs (by simp [h])
    rcases hb with hb | hb
    · subst hb
      simp [startsW]
    · rcases b with _ | ⟨d, t⟩
      · simp at hb
      · have hd : d = '/' := by simpa using hb
        subst hd
        have hcb : ('/' == c) = false := by
          simp
          exact fun h => hc h.symm
        have h1 : startsW ('/' :: t) (c :: y) = false := by
          simp [startsW, hcb]
        simp [h1]

theorem rstrip_head (b : Str) : rstrip b = [] ∨ (rstrip b).head? = b.head? := by
  rcases b with _ | ⟨c, t⟩
  · exact Or.inl rfl
  · rw [rstrip_cons]
    by_cases ht : rstrip t = []
    · by_cases hc : c = '/' <;> simp [ht, hc]
    · simp [ht]

theorem baseInv_rstrip (b : Str) (hb : baseInv b) : baseInv (rstrip b) := by
  rcases rstrip_head b with h | h
  · exact Or.inl h
  · rcases hb with hb | hb
    · subst hb
      exact Or.inl rfl
    · exact Or.inr (by rw [h]; exact hb)

theorem baseInv_join (b S : Str) (hb : baseInv b) : baseInv (join_urls b [S]) := by
  rw [join_urls_normal]
  simp only [List.map_cons, List.map_nil, List.flatten_cons, List.flatten_nil,
    List.append_nil]
  rcases hrb : rstrip b with _ | ⟨c, t⟩
  · unfold segPart
    by_cases hS : trimSl S = [] <;> simp [hS, baseInv]
  · right
    have h := rstrip_head b
    rw [hrb] at h
    rcases h with h | h
    · exact absurd h (by simp)
    · have hc : c = '/' := by
        rcases hb with hb | hb
        · subst hb
          simp [rstrip] at hrb
        · rw [hb] at h
          simpa using h
      simp [hc]

theorem dropWhileAllTrue (p : Char → Bool) (x y : Str) (hx : ∀ c ∈ x, p c = true) :
    List.dropWhile p (x ++ y) = List.dropWhile p y := by
  rw [dropWhileApp]
  have h1 : List.dropWhile p x = [] := by
    rw [List.dropWhile_eq_nil_iff]
    exact fun c hc => by simpa using hx c hc
  simp [h1]

theorem descendChain_spec (segs : List Str) (c : ClientM)
    (hs : c.server.head? ≠ some '/') (hb : baseInv c.base_url) (p : Str) :
    (descendChain c segs).server = c.server ∧
    baseInv (descendChain c segs).base_url ∧
    requestUrl (descendChain c segs) p = join_urls c.server (c.base_url :: (segs ++ [p])) := by
  induction segs generalizing c with
  | nil =>
    refine ⟨rfl, hb, ?_⟩
    show join_urls (join_urls c.server [c.base_url]) [p] = _
    rw [join_urls_append]
    rfl
  | cons S rest ih =>
    have hchain : descendChain c (S :: rest) = descendChain (c.truediv S) rest := rfl
    by_cases hjoin : join_urls c.base_url [S] = []
    · have hstep : c.truediv S = c := by
        show mkClient c.server
          (if join_urls c.base_url [S] = [] then c.base_url else join_urls c.base_url [S])
          c.dryrun = c
        rw [if_pos hjoin]
        show ClientM.mk c.server (strip_pre c.base_url c.server) c.dryrun = c
        rw [strip_pre_noop _ _ hs hb]
      rw [hchain, hstep]
      obtain ⟨h1, h2, h3⟩ := ih c hs hb
      refine ⟨h1, h2, ?_⟩
      rw [h3]
      have hparts := join_urls_normal c.base_url [S]
      rw [hjoin] at hparts
      have hsP : segPart S = [] := by
        have h4 := hparts.symm
        simp only [List.map_cons, List.map_nil, List.flatten_cons, List.flatten_nil,
          List.append_nil] at h4
        rcases List.append_eq_nil.mp h4 with ⟨-, h⟩
        exact h
      rw [join_urls_normal, join_urls_normal]
      simp [hsP]
    · have hstrip : strip_pre (join_urls c.base_url [S]) c.server = join_urls c.base_url [S] :=
        strip_pre_noop _ _ hs (baseInv_join _ _ hb)
      have hstep : c.truediv S = ⟨c.server, join_urls c.base_url [S], c.dryrun⟩ := by
        show mkClient c.server
          (if join_urls c.base_url [S] = [] then c.base_url else join_urls c.base_url [S])
          c.dryrun = _
        rw [if_neg hjoin]
        show ClientM.mk c.server (strip_pre (join_urls c.base_url [S]) c.server) c.dryrun = _
        rw [hstrip]
      rw [hchain, hstep]
      obtain ⟨h1, h2, h3⟩ := ih ⟨c.server, join_urls c.base_url [S], c.dryrun⟩ hs
        (baseInv_join _ _ hb)
      refine ⟨h1, h2, ?_⟩
      rw [h3]
      show join_urls c.server (join_urls c.base_url [S] :: (rest ++ [p])) = _
      rw [join_urls_flatten]
      rfl

theorem rsplitSlashHead_append (x y : Str) (hy : ∀ c ∈ y, ¬ c = '/') :
    rsplitSlashHead (x ++ '/' :: y) = x := by
  unfold rsplitSlashHead
  rw [if_pos (by simp)]
  have hrev : (x ++ '/' :: y).reverse = y.reverse ++ '/' :: x.reverse := by
    simp [List.reverse_append]
  rw [hrev]
  rw [dropWhileAllTrue _ _ _ (fun c hc => by
    have hcy := hy c (List.mem_reverse.mp hc)
    simp [hcy])]
  have hstop : List.dropWhile (fun c => !(c == '/')) ('/' :: x.reverse) = '/' :: x.reverse := by
    simp [List.dropWhile]
  rw [hstop]
  simp

theorem rstrip_trimSl_self (s : Str) : rstrip (trimSl s) = trimSl s := by
  unfold trimSl
  exact rstrip_rstrip _

/-- Claim C5 (amended).  For any client and any chain of descents, the
resolved request URL is the boundary-normalised concatenation of all the
segments: the server address stripped of trailing slashes, followed, for
each further segment in order (cursor, descents, per-call path), by
nothing if the segment consists only of slashes and otherwise by exactly
one `'/'` and the segment stripped of its leading and trailing slashes —
and the result carries no trailing slash.  Slashes interior to a segment
(such as the `//` of the scheme) are preserved verbatim, contrary to the
original claim's "no duplicate slash within segments".  The hypotheses
state that the server address does not begin with `'/'` and the cursor is
empty or begins with `'/'` (so the constructor's `strip_prefix` is inert),
which hold for every client the library builds. -/
theorem claim_C5_url_normal_form (c : ClientM) (chain : List Str) (p : Str)
    (hs : c.server.head? ≠ some '/')
    (hb : c.base_url = [] ∨ c.base_url.head? = some '/') :
    requestUrl (descendChain c chain) p =
      rstrip c.server ++ ((c.base_url :: (chain ++ [p])).map segPart).flatten ∧
    rstrip (requestUrl (descendChain c chain) p) = requestUrl (descendChain c chain) p := by
  obtain ⟨-, -, h3⟩ := descendChain_spec chain c hs hb p
  constructor
  · rw [h3, join_urls_normal]
  · rw [h3, join_urls_normal, rstrip_append, rstrip_of_segJoin, rstrip_rstrip]
    by_cases hj : ((c.base_url :: (chain ++ [p])).map segPart).flatten = []
    · simp [hj]
    · simp [hj]

/-- Witness for C5: the default client (`https://docs.getgrist.com/`,
cursor `/api/`), descending into `docs` and requesting `3`. -/
theorem claim_C5_url_normal_form_witness :
    (mkClient "https://docs.getgrist.com/".toList "/api/".toList false).server.head? ≠ some '/' ∧
    requestUrl
        (descendChain (mkClient "https://docs.getgrist.com/".toList "/api/".toList false)
          ["docs".toList])
        "3".toList =
      rstrip (mkClient "https://docs.getgrist.com/".toList "/api/".toList false).server ++
        (((mkClient "https://docs.getgrist.com/".toList "/api/".toList false).base_url ::
            (["docs".toList] ++ ["3".toList])).map segPart).flatten :=
  ⟨by decide,
    (claim_C5_url_normal_form (mkClient "https://docs.getgrist.com/".toList "/api/".toList false)
      ["docs".toList] "3".toList (by decide) (Or.inr (by decide))).1⟩

/-- Counterexample to C5 as stated: with the default server, a descent
into `a//b` and a call path `p`, the resolved URL is
`https://docs.getgrist.com/api/a//b/p`, which contains the duplicate
slash `//` (twice: in the scheme and inside the descended segment), so it
is not a concatenation with "single slashes between and within segments,
no duplicate slash". -/
theorem claim_C5_counterexample :
    requestUrl
        (descendChain (mkClient "https://docs.getgrist.com/".toList "/api/".toList false)
          ["a//b".toList])
        "p".toList = "https://docs.getgrist.com/api/a//b/p".toList ∧
    hasSub "//".toList
        (requestUrl
          (descendChain (mkClient "https://docs.getgrist.com/".toList "/api/".toList false)
            ["a//b".toList])
          "p".toList) = true := by
  exact ⟨by rfl, by rfl⟩

/-- Claim C6 (amended).  Descending from a client scoped to path P into a
single segment S (nonempty after stripping slashes, with no interior
slash) and then ascending yields, when P is not the root (P has a
nonempty slash-stripped form), a client whose path cursor is P stripped
of trailing slashes — hence exactly P whenever P carries no trailing
slash — with the resolved full URL unchanged.  When P is the root, the
`base_url or self.base_url` fallback in `Client.at` catches the empty
split result and keeps the descended cursor, so the round trip returns
the child client itself (cursor and full URL of the descent), while
ascending the root client alone is a no-op.  (The original claim's
"exactly P" fails when P ends in `'/'`: the round trip drops the
trailing slash, though the resolved URL is unchanged.) -/
theorem claim_C6_parent_after_truediv (c : ClientM) (S : Str)
    (hs : c.server.head? ≠ some '/')
    (hb : c.base_url = [] ∨ c.base_url.head? = some '/')
    (h1 : ¬ trimSl S = []) (h2 : ∀ ch ∈ trimSl S, ¬ ch = '/') :
    ((c.truediv S).parent).base_url =
      (if rstrip c.base_url = [] then (c.truediv S).base_url else rstrip c.base_url) ∧
    ((c.truediv S).parent).full_url =
      (if rstrip c.base_url = [] then (c.truediv S).full_url else c.full_url) ∧
    ClientM.parent ⟨c.server, [], c.dryrun⟩ = ⟨c.server, [], c.dryrun⟩ := by
  have hjoin : join_urls c.base_url [S] = rstrip c.base_url ++ '/' :: trimSl S := by
    rw [join_urls_normal]
    simp only [List.map_cons, List.map_nil, List.flatten_cons, List.flatten_nil,
      List.append_nil]
    unfold segPart
    rw [if_neg h1]
  have hne : ¬ join_urls c.base_url [S] = [] := by
    rw [hjoin]
    intro h
    exact absurd (List.append_eq_nil.mp h).2 (by simp)
  have hstrip : strip_pre (join_urls c.base_url [S]) c.server = join_urls c.base_url [S] :=
    strip_pre_noop _ _ hs (baseInv_join _ _ hb)
  have hstep : c.truediv S = ⟨c.server, rstrip c.base_url ++ '/' :: trimSl S, c.dryrun⟩ := by
    show mkClient c.server
      (if join_urls c.base_url [S] = [] then c.base_url else join_urls c.base_url [S])
      c.dryrun = _
    rw [if_neg hne]
    show ClientM.mk c.server (strip_pre (join_urls c.base_url [S]) c.server) c.dryrun = _
    rw [hstrip, hjoin]
  have hrs : rstrip (rstrip c.base_url ++ '/' :: trimSl S) =
      rstrip c.base_url ++ '/' :: trimSl S := by
    rw [rstrip_append]
    have hcons : rstrip ('/' :: trimSl S) = '/' :: trimSl S := by
      rw [rstrip_cons, rstrip_trimSl_self, if_neg h1]
    rw [hcons]
    simp
  have hsplit : rsplitSlashHead (rstrip c.base_url ++ '/' :: trimSl S) = rstrip c.base_url :=
    rsplitSlashHead_append _ _ h2
  have hroot_noop : ClientM.parent ⟨c.server, [], c.dryrun⟩ = ⟨c.server, [], c.dryrun⟩ := by
    have e2 : rsplitSlashHead ([] : Str) = [] := by
      unfold rsplitSlashHead
      rw [if_neg (by simp)]
    show ClientM.toBase ⟨c.server, [], c.dryrun⟩ (rsplitSlashHead (rstrip ([] : Str))) = _
    rw [show rstrip ([] : Str) = [] from rfl, e2]
    show mkClient c.server (if ([] : Str) = [] then ([] : Str) else []) c.dryrun = _
    rw [if_pos rfl]
    show ClientM.mk c.server (strip_pre [] c.server) c.dryrun = _
    rw [strip_pre_noop [] c.server hs (Or.inl rfl)]
  by_cases hroot : rstrip c.base_url = []
  · have hchild : baseInv (rstrip c.base_url ++ '/' :: trimSl S) := by
      rw [hroot]
      exact Or.inr rfl
    have hparent : (c.truediv S).parent =
        ⟨c.server, rstrip c.base_url ++ '/' :: trimSl S, c.dryrun⟩ := by
      rw [hstep]
      show ClientM.toBase _ (rsplitSlashHead (rstrip (rstrip c.base_url ++ '/' :: trimSl S))) = _
      rw [hrs, hsplit]
      show mkClient c.server
        (if rstrip c.base_url = [] then rstrip c.base_url ++ '/' :: trimSl S
          else rstrip c.base_url)
        c.dryrun = _
      rw [if_pos hroot]
      show ClientM.mk c.server
        (strip_pre (rstrip c.base_url ++ '/' :: trimSl S) c.server) c.dryrun = _
      rw [strip_pre_noop _ _ hs hchild]
    refine ⟨?_, ?_, hroot_noop⟩
    · rw [hparent, hstep, if_pos hroot]
    · rw [hparent, hstep, if_pos hroot]
  · have hparent : (c.truediv S).parent = ⟨c.server, rstrip c.base_url, c.dryrun⟩ := by
      rw [hstep]
      show ClientM.toBase _ (rsplitSlashHead (rstrip (rstrip c.base_url ++ '/' :: trimSl S))) = _
      rw [hrs, hsplit]
      show mkClient c.server
        (if rstrip c.base_url = [] then rstrip c.base_url ++ '/' :: trimSl S
          else rstrip c.base_url)
        c.dryrun = _
      rw [if_neg hroot]
      show ClientM.mk c.server (strip_pre (rstrip c.base_url) c.server) c.dryrun = _
      rw [strip_pre_noop _ _ hs (baseInv_rstrip _ hb)]
    refine ⟨?_, ?_, hroot_noop⟩
    · rw [hparent, if_neg hroot]
    · rw [hparent, if_neg hroot]
      show join_urls c.server [rstrip c.base_url] = join_urls c.server [c.base_url]
      rw [join_urls_normal, join_urls_normal]
      simp only [List.map_cons, List.map_nil, List.flatten_cons, List.flatten_nil,
        List.append_nil]
      rw [segPart_rstrip]

/-- Witness for C6: the default client at `/api` (not the root) descends
into `docs` and ascends back to `/api`, with an unchanged full URL. -/
theorem claim_C6_parent_after_truediv_witness :
    ¬ trimSl "docs".toList = [] ∧
    (((mkClient "https://docs.getgrist.com/".toList "/api".toList false).truediv
        "docs".toList).parent).base_url =
      (if rstrip (mkClient "https://docs.getgrist.com/".toList "/api".toList false).base_url
            = [] then
        ((mkClient "https://docs.getgrist.com/".toList "/api".toList false).truediv
          "docs".toList).base_url
      else rstrip (mkClient "https://docs.getgrist.com/".toList "/api".toList false).base_url) ∧
    (((mkClient "https://docs.getgrist.com/".toList "/api".toList false).truediv
        "docs".toList).parent).full_url =
      (if rstrip (mkClient "https://docs.getgrist.com/".toList "/api".toList false).base_url
            = [] then
        ((mkClient "https://docs.getgrist.com/".toList "/api".toList false).truediv
          "docs".toList).full_url
      else (mkClient "https://docs.getgrist.com/".toList "/api".toList false).full_url) ∧
    ClientM.parent
        ⟨(mkClient "https://docs.getgrist.com/".toList "/api".toList false).server, [],
          (mkClient "https://docs.getgrist.com/".toList "/api".toList false).dryrun⟩ =
      ⟨(mkClient "https://docs.getgrist.com/".toList "/api".toList false).server, [],
        (mkClient "https://docs.getgrist.com/".toList "/api".toList false).dryrun⟩ := by
  obtain ⟨g1, g2, g3⟩ := claim_C6_parent_after_truediv
    (mkClient "https://docs.getgrist.com/".toList "/api".toList false) "docs".toList
    (by decide) (Or.inr (by decide)) (by decide) (by decide)
  exact ⟨by decide, g1, g2, g3⟩

/-- Counterexample to C6 as stated: from the default cursor `'/api/'`
(which is not the root), descending into `docs` and ascending yields the
cursor `'/api'`, not exactly `'/api/'`. -/
theorem claim_C6_counterexample :
    (((mkClient "https://docs.getgrist.com/".toList "/api/".toList false).truediv
        "docs".toList).parent).base_url = "/api".toList ∧
    ¬ (((mkClient "https://docs.getgrist.com/".toList "/api/".toList false).truediv
        "docs".toList).parent).base_url = "/api/".toList := by
  exact ⟨by rfl, by decide⟩

/-- Claim C1.  A call through `Client.request` makes at most 5 attempts.
In the scenario where the first `j` attempts fail retryably and attempt
`j` (0-based) either succeeds or is the 5th attempt and fails retryably:
exactly `j + 1` attempts are made; each of the `j` retryable failures
before the terminal attempt is logged as a warning and followed by one
1-second pause (warnings in order, one sleep per warning); and the call's
outcome is exactly the outcome of the terminal attempt — a success value
is returned unchanged, and a retryable failure on the 5th attempt is
re-raised unwrapped as the transport-level `ConnectionError`, never as
the structured `APIError`. -/
theorem claim_C1_retry_policy (dr : Bool) (m : Str) (evs : Nat → HttpEvent)
    (e : Nat → ConnErr) (j : Nat) (v : Option JVal)
    (hj : j < 5)
    (hpre : ∀ i, i < j → (requestAttempt dr m (evs i)).result = .conn (e i))
    (hlast : (requestAttempt dr m (evs j)).result = .ok v ∨
      (j = 4 ∧ (requestAttempt dr m (evs j)).result = .conn (e j))) :
    (clientCall dr m evs).attemptsMade = j + 1 ∧
    (clientCall dr m evs).attemptsMade ≤ 5 ∧
    (clientCall dr m evs).warnings = (List.range j).map e ∧
    (clientCall dr m evs).sleeps = j ∧
    (clientCall dr m evs).final = (requestAttempt dr m (evs j)).result := by
  simp only [clientCall, retryLoop]
  interval_cases j
  · rcases hlast with hok | ⟨hj4, _⟩
    · simp [retryGo, hok]
    · exact absurd hj4 (by decide)
  · rcases hlast with hok | ⟨hj4, _⟩
    · have h0 := hpre 0 (by omega)
      simp [retryGo, h0, hok, List.range_succ]
    · exact absurd hj4 (by decide)
  · rcases hlast with hok | ⟨hj4, _⟩
    · have h0 := hpre 0 (by omega)
      have h1 := hpre 1 (by omega)
      simp [retryGo, h0, h1, hok, List.range_succ]
    · exact absurd hj4 (by decide)
  · rcases hlast with hok | ⟨hj4, _⟩
    · have h0 := hpre 0 (by omega)
      have h1 := hpre 1 (by omega)
      have h2 := hpre 2 (by omega)
      simp [retryGo, h0, h1, h2, hok, List.range_succ]
    · exact absurd hj4 (by decide)
  · have h0 := hpre 0 (by omega)
    have h1 := hpre 1 (by omega)
    have h2 := hpre 2 (by omega)
    have h3 := hpre 3 (by omega)
    rcases hlast with hok | ⟨_, hconn⟩
    · simp [retryGo, h0, h1, h2, h3, hok, List.range_succ]
    · simp [retryGo, h0, h1, h2, h3, hconn, List.range_succ]

/-- Witness for C1: all five attempts meet a low-level connection failure;
the call makes 5 attempts, logs 4 warnings, sleeps 4 times and re-raises
the transport-level failure. -/
theorem claim_C1_retry_policy_witness :
    (clientCall false "GET".toList (fun _ => HttpEvent.netFail "boom".toList)).attemptsMade =
        4 + 1 ∧
    (clientCall false "GET".toList (fun _ => HttpEvent.netFail "boom".toList)).attemptsMade ≤ 5 ∧
    (clientCall false "GET".toList (fun _ => HttpEvent.netFail "boom".toList)).warnings =
        (List.range 4).map (fun _ => ConnErr.net "boom".toList) ∧
    (clientCall false "GET".toList (fun _ => HttpEvent.netFail "boom".toList)).sleeps = 4 ∧
    (clientCall false "GET".toList (fun _ => HttpEvent.netFail "boom".toList)).final =
      (requestAttempt false "GET".toList (HttpEvent.netFail "boom".toList)).result := by
  exact claim_C1_retry_policy false "GET".toList (fun _ => HttpEvent.netFail "boom".toList)
    (fun _ => ConnErr.net "boom".toList) 4 none (by decide) (fun i _ => rfl)
    (Or.inr ⟨rfl, rfl⟩)

/-- Claim C2 (amended).  For a response whose status is not 502/503/504,
`Client.request` behaves exactly as the spec-side description
`specOutcome`: a JSON-parse failure raises the structured API error with
no parsed body and the generic failed-to-parse message; a parsed mapping
whose error value's string form contains the contention marker is a
retryable failure (the carve-out of claim C4) rather than a verbatim
return; any other populated error field, or — amending the claim's
"non-2xx" — any not-ok status (at least 400) with no recognized error
field, raises the structured API error carrying the parsed body; and
otherwise the parsed value is returned verbatim. -/
theorem claim_C2_response_translation (st : Nat) (body : Option JVal)
    (hst : ¬ (st = 502 ∨ st = 503 ∨ st = 504)) :
    classify (.got st body) = specOutcome st body := by
  simp only [classify, specOutcome, okStatus]
  rw [if_neg hst]
  cases body with
  | none => rfl
  | some r =>
    cases hm : containsMarker (getErrorVal r) with
    | true => simp [hm]
    | false =>
      simp only [hm]
      cases ht : truthy (getErrorVal r) with
      | true => simp [ht]
      | false =>
        by_cases h4 : st < 400
        · have h5 : ¬ 400 ≤ st := by omega
          simp [ht, h4, h5]
        · have h5 : 400 ≤ st := by omega
          simp [ht, h4, h5]

/-- Witness for C2: a 200 response whose body fails to parse. -/
theorem claim_C2_response_translation_witness :
    ¬ ((200 : Nat) = 502 ∨ (200 : Nat) = 503 ∨ (200 : Nat) = 504) ∧
    classify (.got 200 none) = specOutcome 200 none :=
  ⟨by decide, claim_C2_response_translation 200 none (by decide)⟩

/-- Counterexample to C2 as stated, at two concrete inputs.  First, a 304
response (non-2xx, not ok-exempt) whose body parses to the empty JSON
object — no recognized error field — is returned verbatim instead of
raising the structured API error: `response.ok` means status below 400,
not 2xx.  Second, a 200 response parsing to a mapping whose populated
error field contains the contention marker falls under the claim's
"otherwise the call returns the parsed JSON value verbatim" arm, yet the
code raises the retryable transport failure instead of returning. -/
theorem claim_C2_counterexample :
    classify (.got 304 (some (.obj []))) = .ok (some (.obj [])) ∧
    ¬ (200 ≤ 304 ∧ 304 ≤ 299) ∧
    getErrorVal (.obj []) = .null ∧
    (match classify (.got 304 (some (.obj []))) with
      | .api _ => true
      | _ => false) = false ∧
    classify (.got 200 (some (.obj [("error".toList,
        .str "SQLITE_BUSY: database is locked".toList)]))) = .conn .busy ∧
    ¬ classify (.got 200 (some (.obj [("error".toList,
        .str "SQLITE_BUSY: database is locked".toList)]))) =
      .ok (some (.obj [("error".toList,
        .str "SQLITE_BUSY: database is locked".toList)])) := by
  refine ⟨rfl, by decide, rfl, rfl, rfl, ?_⟩
  intro h
  exact AttemptResult.noConfusion h

/-- Claim C3 (amended).  Under dry-run, only the literal verb `GET` is
executed; every other verb — including the GET-equivalent safe reads
`HEAD` and `OPTIONS` — is skipped with no network call and no result.
With dry-run off, every verb is executed against the network. -/
theorem claim_C3_dryrun_gate (m : Str) (ev : HttpEvent) :
    requestAttempt true m ev =
      (if m = GETverb then ⟨true, classify ev⟩ else ⟨false, .ok none⟩) ∧
    requestAttempt false m ev = ⟨true, classify ev⟩ := by
  constructor
  · by_cases hm : m = GETverb <;> simp [requestAttempt, hm]
  · simp [requestAttempt]

/-- Counterexample to C3 as stated: a `HEAD` request (a safe read per the
claim) under dry-run makes no network call and returns no result, unlike
the same request with dry-run off. -/
theorem claim_C3_counterexample :
    (requestAttempt true "HEAD".toList (.got 200 (some (.obj [])))).networkUsed = false ∧
    (requestAttempt true "HEAD".toList (.got 200 (some (.obj [])))).result = .ok none ∧
    (requestAttempt false "HEAD".toList (.got 200 (some (.obj [])))).networkUsed = true ∧
    ¬ (requestAttempt true "HEAD".toList (.got 200 (some (.obj [])))).result =
        (requestAttempt false "HEAD".toList (.got 200 (some (.obj [])))).result := by
  refine ⟨rfl, rfl, rfl, ?_⟩
  intro h
  exact Option.noConfusion (AttemptResult.ok.inj h)

/-- Claim C4.  A parsed JSON mapping whose error value's string form
contains `SQLITE_BUSY` (for a response that is not itself a 502/503/504)
is classified as the retryable transport failure, never as a hard API
error; and a call all of whose attempts meet such a response runs the
same 5-attempt loop with four 1-second pauses and only then re-raises —
identically, except for the error payload, to a call all of whose
attempts meet a 503. -/
theorem claim_C4_sqlite_busy_retryable (st : Nat) (r : JVal) (m : Str)
    (hst : ¬ (st = 502 ∨ st = 503 ∨ st = 504))
    (hm : containsMarker (getErrorVal r) = true) :
    classify (.got st (some r)) = .conn .busy ∧
    clientCall false m (fun _ => .got st (some r)) =
      ⟨.conn .busy, 5, [.busy, .busy, .busy, .busy], 4⟩ ∧
    clientCall false m (fun _ => .got 503 (some r)) =
      ⟨.conn (.gateway 503), 5,
        [.gateway 503, .gateway 503, .gateway 503, .gateway 503], 4⟩ := by
  have hc : classify (.got st (some r)) = .conn .busy := by
    simp only [classify]
    rw [if_neg hst]
    simp [hm]
  have hc2 : classify (.got 503 (some r)) = .conn (.gateway 503) := by
    simp [classify]
  refine ⟨hc, ?_, ?_⟩
  · simp [clientCall, retryLoop, retryGo, requestAttempt, hc]
  · simp [clientCall, retryLoop, retryGo, requestAttempt, hc2]

/-- Witness for C4: a 200 response with body
`{"error": "SQLITE_BUSY: database is locked"}` on every attempt. -/
theorem claim_C4_sqlite_busy_retryable_witness :
    classify (.got 200 (some (.obj [("error".toList,
        .str "SQLITE_BUSY: database is locked".toList)]))) = .conn .busy ∧
    clientCall false "PATCH".toList (fun _ => .got 200 (some (.obj [("error".toList,
        .str "SQLITE_BUSY: database is locked".toList)]))) =
      ⟨.conn .busy, 5, [.busy, .busy, .busy, .busy], 4⟩ := by
  obtain ⟨h1, h2, -⟩ := claim_C4_sqlite_busy_retryable 200
    (.obj [("error".toList, .str "SQLITE_BUSY: database is locked".toList)])
    "PATCH".toList (by decide) (by rfl)
  exact ⟨h1, h2⟩

theorem modifyGo_request : ∀ rs : List PyDict,
    (modifyGo rs).1 =
      if rs.all (fun r => (dlookup idKey r).isSome) then
        some (rs.map (fun r =>
          JVal.obj [(idKey, (dlookup idKey r).getD .null),
                    (fieldsKey, .obj (dictRemove idKey r))]))
      else none := by
  intro rs
  induction rs with
  | nil => rfl
  | cons r rest ih =>
    cases hv : dlookup idKey r with
    | none =>
      simp only [modifyGo, dictPop, hv, List.all_cons]
      simp [hv]
    | some v =>
      simp only [modifyGo, dictPop, hv, List.all_cons]
      rw [ih]
      by_cases hall : rest.all (fun r => (dlookup idKey r).isSome) = true
      · simp [hall, hv]
      · simp only [Bool.not_eq_true] at hall
        simp [hall, hv]

theorem modifyGo_args : ∀ rs : List PyDict,
    (∀ r ∈ rs, (dlookup idKey r).isSome = true) →
    (modifyGo rs).2 = rs.map (dictRemove idKey) := by
  intro rs
  induction rs with
  | nil => intro _; rfl
  | cons r rest ih =>
    intro hall
    obtain ⟨v, hv⟩ := Option.isSome_iff_exists.mp (hall r (by simp))
    simp only [modifyGo, dictPop, hv, List.map_cons]
    simp [ih (fun x hx => hall x (by simp [hx]))]

/-- Claim C9.  `Records.modify` requires each input mapping to carry the
`'id'` key: when every input has it, the forwarded PATCH carries, for
each record in order, the extracted id hoisted next to the record's own
`fields` envelope (the record minus its id); when any input lacks it, the
call fails with the `KeyError` from `pop` before any request reaches the
transport. -/
theorem claim_C9_modify_requires_id (records : List PyDict) :
    (Records_modify records).request =
      if records.all (fun r => (dlookup idKey r).isSome) then
        some ⟨"PATCH".toList, [],
          some (.obj [(recordsKey, .arr (records.map (fun r =>
            JVal.obj [(idKey, (dlookup idKey r).getD .null),
                      (fieldsKey, .obj (dictRemove idKey r))])))])⟩
      else none := by
  show ((modifyGo records).1.map
      (fun l => (⟨"PATCH".toList, [], some (.obj [(recordsKey, .arr l)])⟩ : ReqRec))) = _
  rw [modifyGo_request]
  by_cases hall : records.all (fun r => (dlookup idKey r).isSome) = true
  · simp [hall]
  · simp only [Bool.not_eq_true] at hall
    simp [hall]

/-- Counterexample to C7 as stated: `Records.modify` pops the `'id'` key
out of each caller-supplied mapping; after the call the input
`{"id": 1, "age": 4}` has become `{"age": 4}`. -/
theorem claim_C7_counterexample :
    (Records_modify [[(idKey, JVal.num 1), ("age".toList, JVal.num 4)]]).argsAfter =
      [[("age".toList, JVal.num 4)]] ∧
    ¬ (Records_modify [[(idKey, JVal.num 1), ("age".toList, JVal.num 4)]]).argsAfter =
      [[(idKey, JVal.num 1), ("age".toList, JVal.num 4)]] := by
  refine ⟨rfl, ?_⟩
  intro h
  have h2 := congrArg (List.map (fun d : PyDict => d.length)) h
  exact absurd h2 (by decide)

/-- Claim C7 (amended).  `Records.create` leaves the caller-supplied
record mappings untouched (it only wraps them in fresh envelopes), but
`Records.modify` — contrary to the claim — destructively removes the
`'id'` key from every caller-supplied mapping; beyond the forwarded HTTP
call and that argument mutation neither method touches any other state. -/
theorem claim_C7_method_side_effects (records : List PyDict)
    (hall : ∀ r ∈ records, (dlookup idKey r).isSome = true) :
    (Records_create records).argsAfter = records ∧
    (Records_modify records).argsAfter = records.map (dictRemove idKey) := by
  exact ⟨rfl, modifyGo_args records hall⟩

/-- Witness for C7 at the doctest input `[{"id": 1, "age": 4}]`. -/
theorem claim_C7_method_side_effects_witness :
    (∀ r ∈ ([[(idKey, JVal.num 1), ("age".toList, JVal.num 4)]] : List PyDict),
      (dlookup idKey r).isSome = true) ∧
    (Records_create [[(idKey, JVal.num 1), ("age".toList, JVal.num 4)]]).argsAfter =
      [[(idKey, JVal.num 1), ("age".toList, JVal.num 4)]] ∧
    (Records_modify [[(idKey, JVal.num 1), ("age".toList, JVal.num 4)]]).argsAfter =
      ([[(idKey, JVal.num 1), ("age".toList, JVal.num 4)]] : List PyDict).map
        (dictRemove idKey) :=
  ⟨fun r hr => by
      simp only [List.mem_singleton] at hr
      subst hr
      rfl,
    claim_C7_method_side_effects [[(idKey, JVal.num 1), ("age".toList, JVal.num 4)]]
      (fun r hr => by
        simp only [List.mem_singleton] at hr
        subst hr
        rfl)⟩

/-- Claim C8.  In `WithListRecords.list`, an omitted optional parameter
(filters, sort specification, limit) contributes no key at all to the
outgoing query parameters, while a supplied one — including a supplied
JSON `null` — appears under its key, the filters value serialized with
`json.dumps` to a JSON string and the other two passed verbatim; the
resulting dict is exactly the concatenation of the three optional
entries in declaration order. -/
theorem claim_C8_list_params (filters sort_by limit : Option JVal) :
    listParams filters sort_by limit =
      ((match filters with
        | none => []
        | some fv => [("filters".toList, JVal.str (dumps fv))]) ++
       (match sort_by with
        | none => []
        | some sv => [("sort_by".toList, sv)]) ++
       (match limit with
        | none => []
        | some lv => [("limit".toList, lv)])) ∧
    dlookup "filters".toList (listParams filters sort_by limit) =
      filters.map (fun fv => JVal.str (dumps fv)) ∧
    dlookup "sort_by".toList (listParams filters sort_by limit) = sort_by ∧
    dlookup "limit".toList (listParams filters sort_by limit) = limit := by
  cases filters <;> cases sort_by <;> cases limit <;> exact ⟨rfl, rfl, rfl, rfl⟩

/-- Counterexample to C10 as stated: when the transport returns a value,
`Records.delete` still returns no result (its body has no `return`
statement), so not every delete-shaped proxy method forwards the
transport's value unmodified. -/
theorem claim_C10_counterexample :
    (Records_delete (fun _ => some (JVal.str "gone".toList))).returned = none ∧
    (Records_delete (fun _ => some (JVal.str "gone".toList))).transportVal =
      some (JVal.str "gone".toList) ∧
    ¬ (Records_delete (fun _ => some (JVal.str "gone".toList))).returned =
        (Records_delete (fun _ => some (JVal.str "gone".toList))).transportVal := by
  refine ⟨rfl, rfl, ?_⟩
  intro h
  exact Option.noConfusion h

/-- Claim C10 (amended).  Resource-proxy methods return exactly what the
transport returns for their forwarded call — as `Org.describe` and
`Org.delete` illustrate — with the exception of `Records.delete`, which
issues its POST to `data/delete` but discards the transport's value and
returns no result. -/
theorem claim_C10_forward_unmodified (t : ReqRec → Option JVal) :
    (Org_describe t).returned = (Org_describe t).transportVal ∧
    (Org_delete t).returned = (Org_delete t).transportVal ∧
    (Records_delete t).transportVal = t (Records_delete t).req ∧
    (Records_delete t).returned = none :=
  ⟨rfl, rfl, rfl, rfl⟩
